import Mathlib

/-!
Verification of `trl/trainer/callback.py` (`WinRateCallback`).

The callback holds a prompt dataset, a list of reference completions and a
back-reference to its trainer.  `on_train_begin` generates one reference
completion per prompt of the locally owned shard; `on_evaluate` regenerates a
policy completion per prompt, pairs it with the stored reference completion at
the same index, submits the pairs to a pairwise judge, gathers the per-worker
results, truncates them to the original dataset length and computes the win
rate (fraction of judgments equal to 0).

Machine-level details pulled in from the host framework (tokenizer, model,
judge, tracking backend) are modelled as abstract function-valued records;
the distributed dataset split, which lives in the host framework and not in
this repository, is modelled from the spec's description of it.
-/

set_option autoImplicit false

namespace WinRateCallback

/-- One role/content turn of a conversation, as in the `"chosen"` column. -/
structure Turn where
  role : String
  content : String
deriving DecidableEq, Repr

/-- A prompt conversation: an ordered list of turns. -/
abbrev Conversation := List Turn

/-- Token ids, as produced by `tokenizer.apply_chat_template(..., tokenize=True)`. -/
abbrev Token := Nat

/-- One record of the prompt dataset: its `"prompt"` and `"chosen"` columns. -/
structure PromptRecord where
  prompt : String
  chosen : Conversation
deriving DecidableEq, Repr

instance : Inhabited PromptRecord := ⟨⟨"", []⟩⟩

/-- The external tokenizer/model interface used by both hooks.  A single
prompt is one batch row, so the batch dimension of the tensors is elided:
`apply_chat_template` returns the tokenized row, `generate` the generated row,
`batch_decode` decodes one row to text. -/
structure GenEnv where
  apply_chat_template : Conversation → List Token
  generate : List Token → List Token
  batch_decode : List Token → String

/-- Callback-owned state, as set up in `__init__` (`prompt_dataset`,
`completions`, `ref_completions`). -/
structure CallbackState where
  prompt_dataset : List PromptRecord
  ref_completions : List String
  completions : List String
deriving DecidableEq, Repr

/-- Line 52/85: `if messages[-1]["role"] == "assistant": messages = messages[:-1]`.
On an empty conversation the subscript `messages[-1]` raises `IndexError`,
modelled as `none`. -/
def stripTrailingAssistant (messages : Conversation) : Option Conversation :=
  match messages.getLast? with
  | none => none
  | some t => some (if t.role = "assistant" then messages.dropLast else messages)

/-- The per-prompt generation pipeline shared by both hooks: strip a trailing
assistant turn, apply the chat template, generate, keep only the tokens after
`padded_prompt_length = tokenized_prompt.shape[1]`, decode and take row 0. -/
def generateCompletion (env : GenEnv) (messages : Conversation) : Option String := do
  let stripped ← stripTrailingAssistant messages
  let tokenized_prompt := env.apply_chat_template stripped
  let generation := env.generate tokenized_prompt
  let padded_prompt_length := tokenized_prompt.length
  let generation := generation.drop padded_prompt_length
  some (env.batch_decode generation)

/-- Modelled from the spec: the host framework's
`accelerator.split_between_processes(..., apply_padding=True)`, which is not
part of this repository.  Per the spec it "partitions the dataset across
parallel workers (with padding so shard sizes are equal)": worker `rank` of
`numProcesses` receives a contiguous slice of size `⌈N / numProcesses⌉`,
short final slices being padded by repeating the dataset's last element. -/
def splitBetweenProcesses {α : Type} [Inhabited α] (ds : List α)
    (numProcesses rank : Nat) : List α :=
  let shardLen := (ds.length + numProcesses - 1) / numProcesses
  let slice := (ds.drop (rank * shardLen)).take shardLen
  slice ++ List.replicate (shardLen - slice.length) (ds.getLastD default)

/-- The `on_train_begin` generation loop over `prompts["chosen"]`: one
reference completion appended per conversation, failures propagating. -/
def generateRefCompletions (env : GenEnv) : List Conversation → Option (List String)
  | [] => some []
  | messages :: rest =>
    match generateCompletion env messages with
    | none => none
    | some ref_response =>
      match generateRefCompletions env rest with
      | none => none
      | some tail => some (ref_response :: tail)

/-- Hook `on_train_begin`: split the prompt dataset, generate one reference
completion per shard conversation, append them to `self.ref_completions`. -/
def on_train_begin (env : GenEnv) (numProcesses rank : Nat)
    (s : CallbackState) : Option CallbackState := do
  let prompts := splitBetweenProcesses s.prompt_dataset numProcesses rank
  let refs ← generateRefCompletions env (prompts.map (fun p => p.chosen))
  some { s with ref_completions := s.ref_completions ++ refs }

/-- The `on_evaluate` generation loop over `enumerate(local_dataset["chosen"])`,
carrying the running index `i`: per conversation it generates `response0`
(the policy completion) and reads `response1 = self.ref_completions[i]`
(an out-of-range subscript raises, modelled as `none`), appending the pair
`[response0, response1]` to `annotation_batch["completions"]`. -/
def buildCompletionPairs (env : GenEnv) (refs : List String) :
    Nat → List Conversation → Option (List (List String))
  | _, [] => some []
  | i, messages :: rest =>
    match generateCompletion env messages with
    | none => none
    | some response0 =>
      match refs[i]? with
      | none => none
      | some response1 =>
        match buildCompletionPairs env refs (i + 1) rest with
        | none => none
        | some tail => some ([response0, response1] :: tail)

/-- The per-worker rows built in `on_evaluate` before gathering: the judge's
results plus the prompts and completion pairs they were computed from. -/
structure LocalEvalOutput where
  results : List Int
  prompts : List String
  completions : List (List String)
deriving DecidableEq, Repr

/-- The shard-local part of `on_evaluate`: split the dataset, regenerate a
policy completion per prompt, pair it with the stored reference completion at
the same index, and run the judge on the batch.  No field of `self` is
assigned, so the callback state is returned as it came in. -/
def on_evaluate_local (env : GenEnv)
    (judge_batch : List String → List (List String) → List Int)
    (numProcesses rank : Nat) (s : CallbackState) :
    Option (CallbackState × LocalEvalOutput) := do
  let prompts := splitBetweenProcesses s.prompt_dataset numProcesses rank
  let promptsCol := prompts.map (fun p => p.prompt)
  let completions ← buildCompletionPairs env s.ref_completions 0
    (prompts.map (fun p => p.chosen))
  let results := judge_batch promptsCol completions
  some (s, ⟨results, promptsCol, completions⟩)

/-- The call `Dataset.select(range(n))` on the gathered rows: keeps the first `n` rows;
an out-of-range index raises, modelled as `none`. -/
def selectRange {α : Type} (gathered : List α) (n : Nat) : Option (List α) :=
  if n ≤ gathered.length then some (gathered.take n) else none

/-- Line 118, `sum([r == 0 for r in results]) / len(results)`: Python float division,
modelled over `ℚ`; `len(results) == 0` raises `ZeroDivisionError`, modelled
as `none`. -/
def winRate (results : List Int) : Option ℚ :=
  if results.length = 0 then none
  else some ((results.count 0 : ℚ) / (results.length : ℚ))

/-- The main-process statistics of `on_evaluate`: truncate the gathered
results to `dataset_len = len(self.prompt_dataset)` and compute the win
rate over the truncated column. -/
def aggregateWinRate (gatheredResults : List Int) (datasetLen : Nat) :
    Option ℚ := do
  let results ← selectRange gatheredResults datasetLen
  winRate results

/-- An entry of `trainer.state.log_history`: either a scalar metric logged via
`trainer.log({name: value})` or the rich `winrate_generations` table with its
column names and rows. -/
inductive LogEntry where
  | scalar : String → ℚ → LogEntry
  | table : List String → List (String × String × String × Int) → LogEntry
deriving DecidableEq

/-- The rows `[prompt, pol, ref, index] for ... in zip(prompts, policy, ref,
chosen_indices)` of the logged table. -/
def tableRows (prompts policy ref : List String) (chosen : List Int) :
    List (String × String × String × Int) :=
  (prompts.zip (policy.zip (ref.zip chosen))).map
    (fun r => (r.1, r.2.1, r.2.2.1, r.2.2.2))

/-- The table logged under `"winrate_generations"`, with its fixed columns. -/
def winRateTable (prompts policy ref : List String) (chosen : List Int) :
    LogEntry :=
  LogEntry.table ["Prompt", "Policy", "Ref Model", "Chosen index"]
    (tableRows prompts policy ref chosen)

/-- The main-process logging tail of `on_evaluate` acting on
`trainer.state.log_history`: `trainer.log({"win_rate": ...})` appends a scalar
entry; when the tracking backend is available the table is logged (appended)
and then `log_history.pop()` removes the last entry. -/
def logEvalResults (hist : List LogEntry) (win_rate : ℚ)
    (prompts policy ref : List String) (chosen : List Int)
    (wandbAvailable : Bool) : List LogEntry :=
  let hist1 := hist ++ [LogEntry.scalar "win_rate" win_rate]
  if wandbAvailable then
    (hist1 ++ [winRateTable prompts policy ref chosen]).dropLast
  else hist1

/-! ### Helper lemmas -/

/-- Unfolding `generateCompletion` once the trailing-assistant check has
succeeded. -/
theorem generateCompletion_eq (env : GenEnv) (messages stripped : Conversation)
    (h : stripTrailingAssistant messages = some stripped) :
    generateCompletion env messages =
      some (env.batch_decode
        ((env.generate (env.apply_chat_template stripped)).drop
          (env.apply_chat_template stripped).length)) := by
  simp [generateCompletion, h]

/-- The loop `generateRefCompletions` yields one completion per conversation. -/
theorem generateRefCompletions_length (env : GenEnv)
    (convs : List Conversation) (refs : List String)
    (h : generateRefCompletions env convs = some refs) :
    refs.length = convs.length := by
  induction convs generalizing refs with
  | nil =>
    simp [generateRefCompletions] at h
    simp [← h]
  | cons m rest ih =>
    rw [generateRefCompletions] at h
    cases hg : generateCompletion env m with
    | none => rw [hg] at h; exact absurd h (by simp)
    | some r =>
      rw [hg] at h
      cases ht : generateRefCompletions env rest with
      | none => rw [ht] at h; exact absurd h (by simp)
      | some tail =>
        rw [ht] at h
        simp at h
        simp [← h, ih tail ht]

/-- The loop `generateRefCompletions` is index-aligned with its input conversations. -/
theorem generateRefCompletions_getElem (env : GenEnv)
    (convs : List Conversation) (refs : List String)
    (h : generateRefCompletions env convs = some refs) :
    ∀ (i : Nat) (c : Conversation), convs[i]? = some c →
      refs[i]? = generateCompletion env c := by
  induction convs generalizing refs with
  | nil => intro i c hc; simp at hc
  | cons m rest ih =>
    rw [generateRefCompletions] at h
    cases hg : generateCompletion env m with
    | none => rw [hg] at h; exact absurd h (by simp)
    | some r =>
      rw [hg] at h
      cases ht : generateRefCompletions env rest with
      | none => rw [ht] at h; exact absurd h (by simp)
      | some tail =>
        rw [ht] at h
        simp at h
        intro i c hc
        cases i with
        | zero =>
          simp at hc
          simp [← h, ← hc, hg]
        | succ j =>
          simp at hc
          simpa [← h] using ih tail ht j c hc

/-- Running `buildCompletionPairs` from index `k`: one pair per conversation,
pair `i` holding the policy completion of conversation `i` first and the
stored reference completion at index `k + i` second. -/
theorem buildCompletionPairs_getElem (env : GenEnv) (refs : List String)
    (k : Nat) (convs : List Conversation) (pairs : List (List String))
    (h : buildCompletionPairs env refs k convs = some pairs) :
    pairs.length = convs.length ∧
    ∀ (i : Nat) (c : Conversation), convs[i]? = some c → ∃ pol ref,
      generateCompletion env c = some pol ∧ refs[k + i]? = some ref ∧
      pairs[i]? = some [pol, ref] := by
  induction convs generalizing k pairs with
  | nil =>
    simp [buildCompletionPairs] at h
    subst h
    exact ⟨rfl, by intro i c hc; simp at hc⟩
  | cons m rest ih =>
    rw [buildCompletionPairs] at h
    cases hr0 : generateCompletion env m with
    | none => rw [hr0] at h; exact absurd h (by simp)
    | some r0 =>
      rw [hr0] at h
      cases hr1 : refs[k]? with
      | none => rw [hr1] at h; exact absurd h (by simp)
      | some r1 =>
        rw [hr1] at h
        cases ht : buildCompletionPairs env refs (k + 1) rest with
        | none => rw [ht] at h; exact absurd h (by simp)
        | some tail =>
          rw [ht] at h
          simp at h
          obtain ⟨hlen, hget⟩ := ih (k + 1) tail ht
          constructor
          · simp [← h, hlen]
          · intro i c hc
            cases i with
            | zero =>
              simp at hc
              exact ⟨r0, r1, by simp [← hc, hr0], by simpa using hr1,
                by simp [← h]⟩
            | succ j =>
              simp at hc
              obtain ⟨pol, ref, hpol, href, hidx⟩ := hget j c hc
              refine ⟨pol, ref, hpol, ?_, by simp [← h, hidx]⟩
              have hkj : k + 1 + j = k + (j + 1) := by omega
              simpa [hkj] using href

/-- With a single process, the padded split returns the dataset unchanged. -/
theorem splitBetweenProcesses_one {α : Type} [Inhabited α] (ds : List α) :
    splitBetweenProcesses ds 1 0 = ds := by
  simp [splitBetweenProcesses]

/-! ### Concrete instances used by witnesses -/

/-- A user turn. -/
def uTurn : Turn := ⟨"user", "hi"⟩

/-- An assistant turn (a gold answer to be stripped). -/
def aTurn : Turn := ⟨"assistant", "gold"⟩

/-- A concrete tokenizer/model instance: one token per turn, two generated
tokens appended after the prompt, decoding by comma-joining token ids. -/
def env0 : GenEnv :=
  ⟨fun c => List.replicate c.length 0,
   fun ts => ts ++ [7, 8],
   fun ts => String.intercalate "," (ts.map toString)⟩

/-- A three-record prompt dataset. -/
def ds3 : List PromptRecord :=
  [⟨"p0", [uTurn]⟩, ⟨"p1", [uTurn, aTurn]⟩, ⟨"p2", [uTurn]⟩]

/-- The state reached from a fresh state over `ds3` by `on_train_begin`
with two processes, rank 0. -/
def st1 : CallbackState := ⟨ds3, ["7,8", "7,8"], []⟩

/-- A one-record state with a stored reference completion. -/
def stE : CallbackState := ⟨[⟨"p0", [uTurn]⟩], ["r0"], []⟩

/-- A concrete judge that always prefers the policy completion. -/
def judge0 : List String → List (List String) → List Int := fun _ _ => [0]

/-- The local output of `on_evaluate_local` over `stE`. -/
def outE : LocalEvalOutput := ⟨[0], ["p0"], [["7,8", "r0"]]⟩

/-! ### Claim theorems -/

/-- C1: for every non-empty list of judgment results, the win rate computed
in `on_evaluate` equals (count of judgments equal to 0) / (total number of
judgments); consequently it lies in `[0, 1]`, equals `1` when every judgment
is `0`, and equals `0` when every judgment is `1`. -/
theorem winRate_spec (results : List Int) (h : results ≠ []) :
    winRate results = some ((results.count 0 : ℚ) / (results.length : ℚ)) ∧
    ∀ q : ℚ, winRate results = some q →
      (0 ≤ q ∧ q ≤ 1) ∧
      ((∀ r ∈ results, r = 0) → q = 1) ∧
      ((∀ r ∈ results, r = 1) → q = 0) := by
  have hlen : results.length ≠ 0 := by simpa [List.length_eq_zero] using h
  have hlenQ : (0 : ℚ) < (results.length : ℚ) := by
    exact_mod_cast Nat.pos_of_ne_zero hlen
  constructor
  · simp [winRate, hlen]
  · intro q hq
    rw [winRate, if_neg hlen] at hq
    have hq' : q = (results.count 0 : ℚ) / (results.length : ℚ) :=
      (Option.some_inj.mp hq).symm
    subst hq'
    refine ⟨⟨by positivity, ?_⟩, ?_, ?_⟩
    · apply div_le_one_of_le₀
      · exact_mod_cast List.count_le_length 0 results
      · exact le_of_lt hlenQ
    · intro hall
      have hc : results.count 0 = results.length :=
        List.count_eq_length.mpr (fun b hb => (hall b hb).symm)
      rw [hc]
      exact div_self (ne_of_gt hlenQ)
    · intro hall
      have hc : results.count 0 = 0 :=
        List.count_eq_zero.mpr (fun hmem => by
          have h01 := hall 0 hmem
          simp at h01)
      rw [hc]
      simp

/-- Witness for `winRate_spec` at `results = [0, 1]` (win rate `1/2`). -/
theorem winRate_spec_witness :
    (([(0 : Int), 1] : List Int) ≠ []) ∧
    (winRate [(0 : Int), 1] =
      some ((List.count 0 [(0 : Int), 1] : ℚ) /
        (List.length [(0 : Int), 1] : ℚ)) ∧
     ∀ q : ℚ, winRate [(0 : Int), 1] = some q →
       (0 ≤ q ∧ q ≤ 1) ∧
       ((∀ r ∈ [(0 : Int), 1], r = 0) → q = 1) ∧
       ((∀ r ∈ [(0 : Int), 1], r = 1) → q = 0)) :=
  ⟨by decide, winRate_spec [0, 1] (by decide)⟩

/-- C4: for every prompt conversation processed by either hook, if the final
turn's role is `"assistant"` the input passed to chat-template tokenization
and generation is the conversation without that turn; otherwise the full
conversation is used unchanged. -/
theorem strip_assistant_gen_input (env : GenEnv) (messages : Conversation)
    (t : Turn) (h : messages.getLast? = some t) :
    stripTrailingAssistant messages =
      some (if t.role = "assistant" then messages.dropLast else messages) ∧
    generateCompletion env messages =
      some (env.batch_decode
        ((env.generate (env.apply_chat_template
            (if t.role = "assistant" then messages.dropLast else messages))).drop
          (env.apply_chat_template
            (if t.role = "assistant" then messages.dropLast else messages)).length)) := by
  have h1 : stripTrailingAssistant messages =
      some (if t.role = "assistant" then messages.dropLast else messages) := by
    simp [stripTrailingAssistant, h]
  exact ⟨h1, generateCompletion_eq env messages _ h1⟩

/-- Witness for `strip_assistant_gen_input`: a conversation ending in an
assistant turn has that turn removed before tokenization. -/
theorem strip_assistant_gen_input_witness :
    (([uTurn, aTurn] : Conversation).getLast? = some aTurn) ∧
    (stripTrailingAssistant [uTurn, aTurn] =
      some (if aTurn.role = "assistant"
        then ([uTurn, aTurn] : Conversation).dropLast else [uTurn, aTurn]) ∧
     generateCompletion env0 [uTurn, aTurn] =
      some (env0.batch_decode
        ((env0.generate (env0.apply_chat_template
            (if aTurn.role = "assistant"
              then ([uTurn, aTurn] : Conversation).dropLast
              else [uTurn, aTurn]))).drop
          (env0.apply_chat_template
            (if aTurn.role = "assistant"
              then ([uTurn, aTurn] : Conversation).dropLast
              else [uTurn, aTurn])).length))) :=
  ⟨rfl, strip_assistant_gen_input env0 [uTurn, aTurn] aTurn rfl⟩

/-- C5: the main process truncates the gathered results to exactly the
original dataset length (`select(range(n))` keeps the first `n` rows);
truncation is idempotent and preserves the first `n` entries unchanged
whenever `n` is at most the gathered length. -/
theorem truncate_gathered_spec {α : Type} (gathered : List α) (n : Nat)
    (h : n ≤ gathered.length) :
    selectRange gathered n = some (gathered.take n) ∧
    selectRange (gathered.take n) n = selectRange gathered n ∧
    ∀ i : Nat, i < n → (gathered.take n)[i]? = gathered[i]? := by
  refine ⟨by simp [selectRange, h], ?_, ?_⟩
  · have h2 : n ≤ (List.take n gathered).length := by
      simp [List.length_take]; omega
    rw [selectRange, if_pos h2, selectRange, if_pos h, List.take_take]
    simp
  · intro i hi
    rw [List.getElem?_take]
    simp [hi]

/-- Witness for `truncate_gathered_spec` at `gathered = [0, 1, 0]`, `n = 2`. -/
theorem truncate_gathered_spec_witness :
    ((2 : Nat) ≤ ([(0 : Int), 1, 0] : List Int).length) ∧
    (selectRange [(0 : Int), 1, 0] 2 = some (([(0 : Int), 1, 0]).take 2) ∧
     selectRange (([(0 : Int), 1, 0]).take 2) 2 = selectRange [(0 : Int), 1, 0] 2 ∧
     ∀ i : Nat, i < 2 → (([(0 : Int), 1, 0]).take 2)[i]? = ([(0 : Int), 1, 0] : List Int)[i]?) :=
  ⟨by decide, truncate_gathered_spec [0, 1, 0] 2 (by decide)⟩

/-- C6: with an empty prompt dataset the win-rate computation divides by zero
(modelled: `aggregateWinRate _ 0 = none`, the `ZeroDivisionError` branch);
for every non-empty dataset length covered by the gathered results the
division is well-defined. -/
theorem empty_dataset_div_by_zero (gatheredResults : List Int) (n : Nat)
    (hn : n ≠ 0) (hlen : n ≤ gatheredResults.length) :
    aggregateWinRate gatheredResults 0 = none ∧
    ∃ q : ℚ, aggregateWinRate gatheredResults n = some q := by
  constructor
  · simp [aggregateWinRate, selectRange, winRate]
  · have hl : (gatheredResults.take n).length = n := by
      simp [List.length_take]; omega
    have hne : gatheredResults ≠ [] := by
      intro he
      rw [he] at hlen
      simp at hlen
      omega
    refine ⟨((gatheredResults.take n).count 0 : ℚ) /
      ((gatheredResults.take n).length : ℚ), ?_⟩
    simp [aggregateWinRate, selectRange, hlen, winRate, hl, hn, hne]

/-- Witness for `empty_dataset_div_by_zero` at `gathered = [0, 1, 0]`,
`n = 2`. -/
theorem empty_dataset_div_by_zero_witness :
    ((2 : Nat) ≠ 0) ∧ ((2 : Nat) ≤ ([(0 : Int), 1, 0] : List Int).length) ∧
    (aggregateWinRate [(0 : Int), 1, 0] 0 = none ∧
     ∃ q : ℚ, aggregateWinRate [(0 : Int), 1, 0] 2 = some q) :=
  ⟨by decide, by decide, empty_dataset_div_by_zero [0, 1, 0] 2 (by decide) (by decide)⟩

/-- C2 counterexample: with two processes and a dataset of three prompts
(rank 0), `on_train_begin` stores one reference completion per padded shard
element — two of them, not the dataset length three. -/
theorem refCompletions_dataset_length_cex :
    (on_train_begin env0 2 0 ⟨ds3, [], []⟩).map
      (fun s => s.ref_completions.length) ≠ some ds3.length := by
  decide

/-- C2 (amended): after `on_train_begin` on a fresh state, the
reference-completion list has exactly the length of the local (padded) prompt
shard and is index-aligned with that shard; with a single process the shard is
the whole dataset, so the length then equals the prompt-dataset length. -/
theorem refCompletions_shard_aligned (env : GenEnv) (numProcesses rank : Nat)
    (s s₁ : CallbackState)
    (h : on_train_begin env numProcesses rank s = some s₁)
    (h0 : s.ref_completions = []) :
    s₁.ref_completions.length =
      (splitBetweenProcesses s.prompt_dataset numProcesses rank).length ∧
    (numProcesses = 1 → rank = 0 →
      s₁.ref_completions.length = s.prompt_dataset.length) ∧
    ∀ (i : Nat) (p : PromptRecord),
      (splitBetweenProcesses s.prompt_dataset numProcesses rank)[i]? = some p →
      s₁.ref_completions[i]? = generateCompletion env p.chosen := by
  simp only [on_train_begin] at h
  cases hr : generateRefCompletions env
      ((splitBetweenProcesses s.prompt_dataset numProcesses rank).map
        (fun p => p.chosen)) with
  | none => rw [hr] at h; simp at h
  | some refs =>
    rw [hr] at h
    simp at h
    have hrc : s₁.ref_completions = refs := by
      rw [← h]
      simp [h0]
    have hlen : refs.length =
        (splitBetweenProcesses s.prompt_dataset numProcesses rank).length := by
      have := generateRefCompletions_length env _ refs hr
      simpa using this
    refine ⟨by rw [hrc]; exact hlen, ?_, ?_⟩
    · intro h1 hrk
      subst h1; subst hrk
      rw [hrc, hlen, splitBetweenProcesses_one]
    · intro i p hp
      have hpc : ((splitBetweenProcesses s.prompt_dataset numProcesses rank).map
          (fun p => p.chosen))[i]? = some p.chosen := by
        rw [List.getElem?_map, hp]
        rfl
      rw [hrc]
      exact generateRefCompletions_getElem env _ refs hr i p.chosen hpc

/-- Witness for `refCompletions_shard_aligned`: over `ds3` with two
processes, rank 0, the shard has two elements and so does the stored list. -/
theorem refCompletions_shard_aligned_witness :
    (on_train_begin env0 2 0 ⟨ds3, [], []⟩ = some st1) ∧
    ((CallbackState.mk ds3 [] []).ref_completions = []) ∧
    (st1.ref_completions.length =
      (splitBetweenProcesses (CallbackState.mk ds3 [] []).prompt_dataset 2 0).length ∧
     ((2 : Nat) = 1 → (0 : Nat) = 0 →
       st1.ref_completions.length =
         (CallbackState.mk ds3 [] []).prompt_dataset.length) ∧
     ∀ (i : Nat) (p : PromptRecord),
       (splitBetweenProcesses (CallbackState.mk ds3 [] []).prompt_dataset 2 0)[i]? =
         some p →
       st1.ref_completions[i]? = generateCompletion env0 p.chosen) :=
  ⟨rfl, rfl, refCompletions_shard_aligned env0 2 0 ⟨ds3, [], []⟩ st1 rfl rfl⟩

/-- C3: the completion pair submitted to the judge at position `i` is exactly
`[policy completion generated for shard prompt i, reference completion stored
at index i]` — policy first, reference second, no reordering. -/
theorem pairing_positional (env : GenEnv)
    (judge_batch : List String → List (List String) → List Int)
    (numProcesses rank : Nat) (s s₁ : CallbackState) (out : LocalEvalOutput)
    (h : on_evaluate_local env judge_batch numProcesses rank s = some (s₁, out))
    (i : Nat) (p : PromptRecord)
    (hp : (splitBetweenProcesses s.prompt_dataset numProcesses rank)[i]? = some p) :
    ∃ pol ref, generateCompletion env p.chosen = some pol ∧
      s.ref_completions[i]? = some ref ∧
      out.completions[i]? = some [pol, ref] := by
  simp only [on_evaluate_local] at h
  cases hb : buildCompletionPairs env s.ref_completions 0
      ((splitBetweenProcesses s.prompt_dataset numProcesses rank).map
        (fun p => p.chosen)) with
  | none => rw [hb] at h; simp at h
  | some pairs =>
    rw [hb] at h
    simp at h
    have hout : out.completions = pairs := by
      rw [← h.2]
    have hpc : ((splitBetweenProcesses s.prompt_dataset numProcesses rank).map
        (fun p => p.chosen))[i]? = some p.chosen := by
      rw [List.getElem?_map, hp]
      rfl
    obtain ⟨-, hget⟩ := buildCompletionPairs_getElem env s.ref_completions 0 _ pairs hb
    obtain ⟨pol, ref, hpol, href, hidx⟩ := hget i p.chosen hpc
    exact ⟨pol, ref, hpol, by simpa using href, by rw [hout]; exact hidx⟩

/-- Witness for `pairing_positional` on a one-record shard. -/
theorem pairing_positional_witness :
    (on_evaluate_local env0 judge0 1 0 stE = some (stE, outE)) ∧
    ((splitBetweenProcesses stE.prompt_dataset 1 0)[0]? =
      some (PromptRecord.mk "p0" [uTurn])) ∧
    ∃ pol ref, generateCompletion env0 (PromptRecord.mk "p0" [uTurn]).chosen = some pol ∧
      stE.ref_completions[0]? = some ref ∧
      outE.completions[0]? = some [pol, ref] :=
  ⟨rfl, rfl,
    pairing_positional env0 judge0 1 0 stE stE outE rfl 0 (PromptRecord.mk "p0" [uTurn]) rfl⟩

/-- C7: `on_evaluate` leaves the stored reference completions and the prompt
dataset unchanged — the shard-local step returns the callback state with both
fields as they came in. -/
theorem on_evaluate_frame (env : GenEnv)
    (judge_batch : List String → List (List String) → List Int)
    (numProcesses rank : Nat) (s s₁ : CallbackState) (out : LocalEvalOutput)
    (h : on_evaluate_local env judge_batch numProcesses rank s = some (s₁, out)) :
    s₁.ref_completions = s.ref_completions ∧
    s₁.prompt_dataset = s.prompt_dataset := by
  simp only [on_evaluate_local] at h
  cases hb : buildCompletionPairs env s.ref_completions 0
      ((splitBetweenProcesses s.prompt_dataset numProcesses rank).map
        (fun p => p.chosen)) with
  | none => rw [hb] at h; simp at h
  | some pairs =>
    rw [hb] at h
    simp at h
    rw [← h.1]
    exact ⟨rfl, rfl⟩

/-- Witness for `on_evaluate_frame` on a one-record shard. -/
theorem on_evaluate_frame_witness :
    (on_evaluate_local env0 judge0 1 0 stE = some (stE, outE)) ∧
    (stE.ref_completions = stE.ref_completions ∧
     stE.prompt_dataset = stE.prompt_dataset) :=
  ⟨rfl, on_evaluate_frame env0 judge0 1 0 stE stE outE rfl⟩

/-- C8: the recorded completion decodes exactly the tokens at positions at or
after the tokenized input's length: the slice equals the newly generated
suffix whenever generation extends the prompt, and every kept position reads
from index `input length + i` of the generation, so no input-prompt position
contributes. -/
theorem completion_slice_spec (env : GenEnv) (messages stripped : Conversation)
    (h : stripTrailingAssistant messages = some stripped) :
    generateCompletion env messages =
      some (env.batch_decode
        ((env.generate (env.apply_chat_template stripped)).drop
          (env.apply_chat_template stripped).length)) ∧
    (∀ newTokens : List Token,
      env.generate (env.apply_chat_template stripped) =
        env.apply_chat_template stripped ++ newTokens →
      (env.generate (env.apply_chat_template stripped)).drop
        (env.apply_chat_template stripped).length = newTokens) ∧
    (∀ i : Nat,
      ((env.generate (env.apply_chat_template stripped)).drop
        (env.apply_chat_template stripped).length)[i]? =
      (env.generate (env.apply_chat_template stripped))[(env.apply_chat_template stripped).length + i]?) := by
  refine ⟨generateCompletion_eq env messages stripped h, ?_, ?_⟩
  · intro newTokens hnt
    rw [hnt]
    exact List.drop_left _ _
  · intro i
    exact List.getElem?_drop _ _ _

/-- Witness for `completion_slice_spec` on a single user turn with `env0`. -/
theorem completion_slice_spec_witness :
    (stripTrailingAssistant [uTurn] = some [uTurn]) ∧
    (generateCompletion env0 [uTurn] =
      some (env0.batch_decode
        ((env0.generate (env0.apply_chat_template [uTurn])).drop
          (env0.apply_chat_template [uTurn]).length)) ∧
    (∀ newTokens : List Token,
      env0.generate (env0.apply_chat_template [uTurn]) =
        env0.apply_chat_template [uTurn] ++ newTokens →
      (env0.generate (env0.apply_chat_template [uTurn])).drop
        (env0.apply_chat_template [uTurn]).length = newTokens) ∧
    (∀ i : Nat,
      ((env0.generate (env0.apply_chat_template [uTurn])).drop
        (env0.apply_chat_template [uTurn]).length)[i]? =
      (env0.generate (env0.apply_chat_template [uTurn]))[(env0.apply_chat_template [uTurn]).length + i]?)) :=
  ⟨rfl, completion_slice_spec env0 [uTurn] [uTurn] rfl⟩

/-- C9: on the main process with the tracking backend available, the logged
table carries exactly the columns Prompt, Policy, Ref Model, Chosen index, and
after `log_history.pop()` the retained history equals the prior history plus
only the win-rate scalar — the table entry is removed and every earlier entry
is unchanged. -/
theorem log_table_popped (hist : List LogEntry) (win_rate : ℚ)
    (prompts policy ref : List String) (chosen : List Int) :
    winRateTable prompts policy ref chosen =
      LogEntry.table ["Prompt", "Policy", "Ref Model", "Chosen index"]
        (tableRows prompts policy ref chosen) ∧
    logEvalResults hist win_rate prompts policy ref chosen true =
      hist ++ [LogEntry.scalar "win_rate" win_rate] := by
  refine ⟨rfl, ?_⟩
  simp [logEvalResults]

/-- C10: the trailing-assistant check reads `messages[-1]`: it is a valid
access on every non-empty conversation, while on an empty conversation the
pipeline raises (modelled as `none`) before any generation occurs — for every
tokenizer/model instance, without consulting it. -/
theorem empty_conversation_index_error (messages : Conversation)
    (h : messages ≠ []) (env : GenEnv) :
    (stripTrailingAssistant messages).isSome ∧
    generateCompletion env [] = none := by
  constructor
  · cases hm : messages.getLast? with
    | none =>
      rw [List.getLast?_eq_none_iff] at hm
      exact absurd hm h
    | some t => simp [stripTrailingAssistant, hm]
  · rfl

/-- Witness for `empty_conversation_index_error` on a one-turn conversation
with `env0`. -/
theorem empty_conversation_index_error_witness :
    (([uTurn] : Conversation) ≠ []) ∧
    ((stripTrailingAssistant [uTurn]).isSome ∧
     generateCompletion env0 [] = none) :=
  ⟨by decide, empty_conversation_index_error [uTurn] (by decide) env0⟩

end WinRateCallback
